import Mathlib

/-!
Shallow embedding of the data pipeline of src/main.py: the CSV loading and
cleaning function load_data, the effect of create_plot on the loaded table,
and the export control flow of save_plot. Numeric cells are modelled as
rational numbers; a raw CSV cell either carries a number or carries text that
fails numeric conversion.
-/

/-- A raw cell of the parsed CSV: either a numeric value, or text on which
numeric conversion fails and which pd.to_numeric with coercion turns into a
missing value. -/
inductive RawCell where
  | num (q : ℚ)
  | txt (s : String)
deriving DecidableEq

/-- Models pd.to_numeric with coercion of failures: numbers pass through,
anything else becomes missing. -/
def toNumeric : RawCell → Option ℚ
  | .num q => some q
  | .txt _ => none

/-- The table produced by pd.read_csv before any cleaning: a header of column
names and data rows of raw cells. Comment lines of the file are already gone
at this point, as read_csv drops them before building the table. -/
structure RawTable where
  columns : List String
  rows : List (List RawCell)
deriving DecidableEq

/-- A pandas DataFrame after numeric coercion: column names, the integer row
index, and rows of optional rationals, where none models NaN. -/
structure DataFrame where
  columns : List String
  index : List Nat
  rows : List (List (Option ℚ))
deriving DecidableEq

/-- Every row has exactly one cell per column. -/
def Wf (df : DataFrame) : Prop :=
  ∀ r ∈ df.rows, r.length = df.columns.length

instance : DecidablePred Wf := fun df =>
  decidable_of_iff (∀ r ∈ df.rows, r.length = df.columns.length) Iff.rfl

/-- The fixed ignore set of load_data, line 24 of src/main.py. -/
def ignore_cols : List String :=
  ["X3:", "Trigger", "Time_Offset", "ADC_Status", "ADC_Sequence", "Event", "Comments"]

/-- The raw cell of a row under a named column: first header entry equal to
the name wins, as in pandas label lookup. -/
def cellAt : (cols : List String) → (row : List RawCell) → String → RawCell
  | [], _, _ => .txt ""
  | _ :: _, [], _ => .txt ""
  | c :: cs, v :: vs, c0 => if c = c0 then v else cellAt cs vs c0

/-- Lines 21 and 22 of src/main.py: convert the Time column to numbers and
drop every row whose Time fails conversion, keeping each surviving row paired
with its numeric Time key. -/
def keyedRows (t : RawTable) : List (ℚ × List RawCell) :=
  t.rows.filterMap (fun r => (toNumeric (cellAt t.columns r "Time")).map (fun q => (q, r)))

/-- Comparison of keyed rows by their numeric Time key. -/
def keyLe (a b : ℚ × List RawCell) : Prop := a.1 ≤ b.1

instance : DecidableRel keyLe := fun a b => inferInstanceAs (Decidable (a.1 ≤ b.1))

instance : IsTotal (ℚ × List RawCell) keyLe := ⟨fun a b => le_total a.1 b.1⟩

instance : IsTrans (ℚ × List RawCell) keyLe := ⟨fun _ _ _ h₁ h₂ => le_trans h₁ h₂⟩

/-- Line 22 of src/main.py: sort the surviving rows by Time ascending. The
embedding fixes a concrete comparison sort; the source delegates to the
pandas sort_values default. -/
def sortedRows (t : RawTable) : List (ℚ × List RawCell) :=
  List.insertionSort keyLe (keyedRows t)

/-- Line 25 of src/main.py: the column names kept after removing the ignore
set. -/
def keptColumns (t : RawTable) : List String :=
  t.columns.filter (fun c => decide (c ∉ ignore_cols))

/-- Lines 27 to 29 of src/main.py applied to one kept row: the Time column
already holds its numeric key, every other kept column is converted to a
number with failures becoming missing. -/
def convertRow (t : RawTable) (p : ℚ × List RawCell) : List (Option ℚ) :=
  (keptColumns t).map (fun c => if c = "Time" then some p.1 else toNumeric (cellAt t.columns p.2 c))

/-- The fully cleaned table rows before any decimation. -/
def cleanedRows (t : RawTable) : List (List (Option ℚ)) :=
  (sortedRows t).map (convertRow t)

/-- Integer stride subsampling: keep the rows at positions 0, k, 2k and so
on, which is what df.iloc with stride k produces. -/
def everyNth {α : Type*} (k : Nat) (l : List α) : List α :=
  match l with
  | [] => []
  | a :: t => a :: everyNth k (t.drop (k - 1))
termination_by l.length
decreasing_by
  simp only [List.length_drop, List.length_cons]
  omega

/-- Lines 31 to 33 of src/main.py: decimate only when step exceeds one. -/
def loadRows (t : RawTable) (step : Int) : List (List (Option ℚ)) :=
  if step > 1 then everyNth step.toNat (cleanedRows t) else cleanedRows t

/-- load_data of src/main.py, lines 10 to 39: fail when the Time column is
absent, otherwise clean, sort, drop ignored columns, convert, optionally
decimate, and renumber the index from zero. -/
def load_data (t : RawTable) (step : Int) : Except String DataFrame :=
  if "Time" ∈ t.columns then
    .ok { columns := keptColumns t,
          index := List.range (loadRows t step).length,
          rows := loadRows t step }
  else
    .error "Expected a Time column (seconds)."

/-- The cleaned image of one raw row: every kept column converted to a
number, failures becoming missing. -/
def cleanRow (t : RawTable) (r : List RawCell) : List (Option ℚ) :=
  (keptColumns t).map (fun c => toNumeric (cellAt t.columns r c))

/-- The cell of a DataFrame row under a named column: first header entry
equal to the name wins. -/
def rowCell : (cols : List String) → (row : List (Option ℚ)) → String → Option ℚ
  | [], _, _ => none
  | _ :: _, [], _ => none
  | c :: cs, v :: vs, c0 => if c = c0 then v else rowCell cs vs c0

/-- A named column of a DataFrame as the list of its cells. -/
def getColumn (df : DataFrame) (c : String) : List (Option ℚ) :=
  df.rows.map (fun r => rowCell df.columns r c)

/-- Replace the cell under a named column inside one row. -/
def setRowCell : (cols : List String) → (row : List (Option ℚ)) → String → Option ℚ → List (Option ℚ)
  | [], row, _, _ => row
  | _ :: _, [], _, _ => []
  | c :: cs, v :: vs, c0, w => if c = c0 then w :: vs else v :: setRowCell cs vs c0 w

/-- Pandas column assignment: overwrite the column when the name exists,
otherwise append it as a new last column. -/
def setColumn (df : DataFrame) (c : String) (vals : List (Option ℚ)) : DataFrame :=
  if c ∈ df.columns then
    { columns := df.columns, index := df.index,
      rows := List.zipWith (fun r v => setRowCell df.columns r c v) df.rows vals }
  else
    { columns := df.columns ++ [c], index := df.index,
      rows := List.zipWith (fun r v => r ++ [v]) df.rows vals }

/-- The EEG channel vocabulary of create_plot, lines 45 and 46 of
src/main.py. -/
def eeg_channels : List String :=
  ["P3", "C3", "F3", "Fz", "F4", "C4", "P4", "Cz", "A1", "Fp1", "Fp2",
   "T3", "T5", "O1", "O2", "F7", "F8", "A2", "T6", "T4", "Pz"]

/-- The ECG channel vocabulary of create_plot, line 49 of src/main.py. -/
def ecg_channels : List String := ["X1:LEOG", "X2:REOG"]

/-- The reference channel vocabulary of create_plot, line 50 of
src/main.py. -/
def cm_channels : List String := ["CM"]

/-- Lines 53 to 61 of src/main.py: the channels of a vocabulary present in
the table, further narrowed by the optional allow list, where an empty list
models the falsy Python values None and empty. -/
def available_in (chlist : List String) (df : DataFrame) (channels : List String) : List String :=
  let avail := chlist.filter (fun ch => decide (ch ∈ df.columns))
  if channels = [] then avail else avail.filter (fun ch => decide (ch ∈ channels))

/-- Division of a whole column by 1000, with missing values propagating. -/
def divColumn (vals : List (Option ℚ)) : List (Option ℚ) :=
  vals.map (Option.map (fun q => q / 1000))

/-- Lines 69 and 70 of src/main.py: the loop that assigns a derived mV
column for each available ECG channel. -/
def mvFold (df : DataFrame) (chs : List String) : DataFrame :=
  chs.foldl (fun d ch => setColumn d (ch ++ "_mV") (divColumn (getColumn d ch))) df

/-- The effect of create_plot on the DataFrame it receives, lines 68 to 84
of src/main.py: in mv mode it assigns a derived mV column per available ECG
channel and, when CM is available, a derived CM mV column; otherwise it
leaves the table untouched. The chart construction itself reads the table
without changing it. -/
def create_plot_df (df : DataFrame) (ecg_units : String) (channels : List String) : DataFrame :=
  let available_ecg := available_in ecg_channels df channels
  let available_cm := available_in cm_channels df channels
  let df1 := if ecg_units = "mv" then mvFold df available_ecg else df
  if ecg_units = "mv" ∧ available_cm ≠ [] then
    setColumn df1 "CM_mV" (divColumn (getColumn df1 "CM"))
  else df1

/-- Lines 71 and 74 of src/main.py: the column names whose values feed the
ECG traces at the rendering boundary. -/
def ecg_data_cols (df : DataFrame) (ecg_units : String) (channels : List String) : List String :=
  let available_ecg := available_in ecg_channels df channels
  if ecg_units = "mv" then available_ecg.map (fun ch => ch ++ "_mV") else available_ecg

/-- The export artifacts save_plot can produce. -/
inductive Artifact where
  | html
  | png
  | pdf
deriving DecidableEq

/-- Where the optional static image backend fails, if anywhere: the first
write_image call, the second one, or not at all. -/
inductive StaticFailure where
  | ok
  | atPng
  | atPdf
deriving DecidableEq

/-- Outcome of save_plot: the artifacts written in order, whether an
exception escaped to the caller, and whether the missing backend hint was
printed. -/
structure SaveResult where
  artifacts : List Artifact
  raised : Bool
  hintPrinted : Bool
deriving DecidableEq

/-- save_plot of src/main.py, lines 256 to 279: the interactive HTML export
runs unconditionally first; the two static exports run inside a try block
whose except clause prints a hint and swallows the exception, so a static
failure aborts the remaining static writes but never escapes. -/
def save_plot (f : StaticFailure) : SaveResult :=
  match f with
  | .ok => { artifacts := [.html, .png, .pdf], raised := false, hintPrinted := false }
  | .atPng => { artifacts := [.html], raised := false, hintPrinted := true }
  | .atPdf => { artifacts := [.html, .png], raised := false, hintPrinted := true }

/-- A concrete input table in the shape of the spec scenario: header Time,
Fp1, Trigger, CM, one row whose Time cell fails numeric conversion. -/
def sampleTable : RawTable :=
  { columns := ["Time", "Fp1", "Trigger", "CM"],
    rows := [[.num 0, .num 1, .num 9, .num 5000],
             [.txt "bad", .txt "x", .num 9, .num 5200],
             [.num 2, .num 3, .num 9, .num 5400]] }

/-- The table load_data produces from sampleTable without decimation. -/
def sampleLoaded : DataFrame :=
  { columns := ["Time", "Fp1", "CM"],
    index := [0, 1],
    rows := [[some 0, some 1, some 5000],
             [some 2, some 3, some 5400]] }

/-- The table load_data produces from sampleTable with step two. -/
def sampleLoaded2 : DataFrame :=
  { columns := ["Time", "Fp1", "CM"],
    index := [0],
    rows := [[some 0, some 1, some 5000]] }

/-- A concrete loaded table holding one ECG channel with a raw value of 1500
microvolts. -/
def ecgSample : DataFrame :=
  { columns := ["Time", "X1:LEOG"],
    index := [0],
    rows := [[some 0, some 1500]] }

/-! Helper lemmas about everyNth. -/

theorem everyNth_nil {α : Type*} (k : Nat) : everyNth k ([] : List α) = [] := by
  simp [everyNth]

theorem everyNth_cons {α : Type*} (k : Nat) (a : α) (t : List α) :
    everyNth k (a :: t) = a :: everyNth k (t.drop (k - 1)) := by
  simp [everyNth]

theorem everyNth_sublist {α : Type*} (k : Nat) : ∀ (l : List α), (everyNth k l).Sublist l
  | [] => by simp [everyNth]
  | a :: t => by
    rw [everyNth_cons]
    exact ((everyNth_sublist k (t.drop (k - 1))).trans (List.drop_sublist _ t)).cons₂ a
termination_by l => l.length
decreasing_by
  simp only [List.length_drop, List.length_cons]
  omega

theorem length_everyNth {α : Type*} (k : Nat) (hk : 1 ≤ k) :
    ∀ (l : List α), (everyNth k l).length = (l.length + k - 1) / k
  | [] => by
    rw [everyNth_nil]
    simp only [List.length_nil, Nat.zero_add]
    exact (Nat.div_eq_of_lt (by omega)).symm
  | a :: t => by
    rw [everyNth_cons]
    simp only [List.length_cons]
    rw [length_everyNth k hk (t.drop (k - 1))]
    simp only [List.length_drop]
    rcases le_or_lt (k - 1) t.length with h | h
    · have h1 : t.length - (k - 1) + k - 1 = t.length - (k - 1) + (k - 1) := by omega
      rw [h1, Nat.sub_add_cancel h]
      have h2 : t.length + 1 + k - 1 = t.length + k := by omega
      rw [h2, Nat.add_div_right _ (by omega)]
    · have h1 : t.length - (k - 1) + k - 1 = k - 1 := by omega
      rw [h1, Nat.div_eq_of_lt (by omega)]
      have h2 : t.length + 1 + k - 1 = t.length + k := by omega
      rw [h2, Nat.add_div_right _ (by omega), Nat.div_eq_of_lt (by omega)]
termination_by l => l.length
decreasing_by
  simp only [List.length_drop, List.length_cons]
  omega

theorem getD_drop_general {α : Type*} (d : α) :
    ∀ (l : List α) (m i : Nat), (l.drop m).getD i d = l.getD (m + i) d
  | _, 0, _ => by simp
  | [], _ + 1, _ => by simp
  | a :: t, m + 1, i => by
    rw [List.drop_succ_cons, getD_drop_general d t m i]
    have h : m + 1 + i = (m + i) + 1 := by omega
    rw [h, List.getD_cons_succ]

theorem getD_everyNth {α : Type*} (k : Nat) (hk : 1 ≤ k) (d : α) :
    ∀ (l : List α) (i : Nat), (everyNth k l).getD i d = l.getD (i * k) d
  | [], i => by simp [everyNth_nil]
  | a :: t, 0 => by rw [everyNth_cons]; simp
  | a :: t, i + 1 => by
    rw [everyNth_cons, List.getD_cons_succ, getD_everyNth k hk d (t.drop (k - 1)) i,
      getD_drop_general]
    have h : (i + 1) * k = (k - 1 + i * k) + 1 := by
      rw [Nat.succ_mul]
      omega
    rw [h, List.getD_cons_succ]
termination_by l _ => l.length
decreasing_by
  simp only [List.length_drop, List.length_cons]
  omega

theorem everyNth_map {α β : Type*} (f : α → β) (k : Nat) :
    ∀ (l : List α), everyNth k (l.map f) = (everyNth k l).map f
  | [] => by simp [everyNth]
  | a :: t => by
    simp only [List.map_cons, everyNth_cons]
    rw [← List.map_drop, everyNth_map f k (t.drop (k - 1))]
termination_by l => l.length
decreasing_by
  simp only [List.length_drop, List.length_cons]
  omega

/-! Helper lemmas about rowCell and setRowCell. -/

theorem rowCell_map (f : String → Option ℚ) :
    ∀ (cs : List String) (c : String), c ∈ cs → rowCell cs (cs.map f) c = f c
  | [], c, h => absurd h (List.not_mem_nil c)
  | c0 :: cs, c, h => by
    simp only [List.map_cons, rowCell]
    by_cases hc : c0 = c
    · rw [if_pos hc, hc]
    · rw [if_neg hc]
      have hmem : c ∈ cs := by
        rcases List.mem_cons.mp h with h1 | h1
        · exact absurd h1.symm hc
        · exact h1
      exact rowCell_map f cs c hmem

theorem rowCell_append_ne (c c0 : String) (hne : c0 ≠ c) (w : Option ℚ) :
    ∀ (cs : List String) (r : List (Option ℚ)), r.length = cs.length →
      rowCell (cs ++ [c]) (r ++ [w]) c0 = rowCell cs r c0
  | [], [], _ => by
    simp only [List.nil_append, rowCell]
    rw [if_neg (fun h => hne h.symm)]
  | [], _ :: _, hlen => by simp at hlen
  | _ :: _, [], hlen => by simp at hlen
  | c1 :: cs, v :: vs, hlen => by
    simp only [List.cons_append, rowCell]
    by_cases h1 : c1 = c0
    · rw [if_pos h1, if_pos h1]
    · rw [if_neg h1, if_neg h1]
      exact rowCell_append_ne c c0 hne w cs vs (by simpa using hlen)

theorem rowCell_append_self (c : String) (w : Option ℚ) :
    ∀ (cs : List String) (r : List (Option ℚ)), c ∉ cs → r.length = cs.length →
      rowCell (cs ++ [c]) (r ++ [w]) c = w
  | [], [], _, _ => by simp [rowCell]
  | [], _ :: _, _, hlen => by simp at hlen
  | _ :: _, [], _, hlen => by simp at hlen
  | c1 :: cs, v :: vs, hnm, hlen => by
    simp only [List.cons_append, rowCell]
    rw [if_neg (fun h => hnm (by rw [← h]; exact List.mem_cons_self c1 cs))]
    exact rowCell_append_self c w cs vs (fun h => hnm (List.mem_cons_of_mem _ h))
      (by simpa using hlen)

theorem rowCell_setRowCell_ne (c c0 : String) (hne : c0 ≠ c) (w : Option ℚ) :
    ∀ (cs : List String) (r : List (Option ℚ)),
      rowCell cs (setRowCell cs r c w) c0 = rowCell cs r c0
  | [], r => by simp [rowCell, setRowCell]
  | c1 :: cs, [] => by simp [rowCell, setRowCell]
  | c1 :: cs, v :: vs => by
    simp only [setRowCell]
    by_cases h1 : c1 = c
    · rw [if_pos h1]
      simp only [rowCell]
      have h2 : ¬(c1 = c0) := fun h => hne (h.symm.trans h1)
      rw [if_neg h2, if_neg h2]
    · rw [if_neg h1]
      simp only [rowCell]
      by_cases h2 : c1 = c0
      · rw [if_pos h2, if_pos h2]
      · rw [if_neg h2, if_neg h2, rowCell_setRowCell_ne c c0 hne w cs vs]

theorem rowCell_setRowCell_self (c : String) (w : Option ℚ) :
    ∀ (cs : List String) (r : List (Option ℚ)), c ∈ cs → r.length = cs.length →
      rowCell cs (setRowCell cs r c w) c = w
  | [], _, h, _ => absurd h (List.not_mem_nil c)
  | _ :: _, [], _, hlen => by simp at hlen
  | c1 :: cs, v :: vs, hmem, hlen => by
    simp only [setRowCell]
    by_cases h1 : c1 = c
    · rw [if_pos h1]
      simp only [rowCell]
      rw [if_pos h1]
    · rw [if_neg h1]
      simp only [rowCell]
      rw [if_neg h1]
      have hmem2 : c ∈ cs := by
        rcases List.mem_cons.mp hmem with h2 | h2
        · exact absurd h2.symm h1
        · exact h2
      exact rowCell_setRowCell_self c w cs vs hmem2 (by simpa using hlen)

theorem length_setRowCell (c : String) (w : Option ℚ) :
    ∀ (cs : List String) (r : List (Option ℚ)), (setRowCell cs r c w).length = r.length
  | [], _ => rfl
  | _ :: _, [] => rfl
  | c1 :: cs, v :: vs => by
    simp only [setRowCell]
    by_cases h1 : c1 = c
    · rw [if_pos h1]
      simp
    · rw [if_neg h1]
      simp only [List.length_cons, length_setRowCell c w cs vs]

/-! Helper lemmas about zipWith. -/

theorem map_zipWith_eq_right {α β : Type*} (f : α → β → α) (g : α → β) :
    ∀ (rows : List α) (vals : List β), vals.length = rows.length →
      (∀ r ∈ rows, ∀ v, g (f r v) = v) →
      (List.zipWith f rows vals).map g = vals
  | [], [], _, _ => rfl
  | [], _ :: _, hlen, _ => by simp at hlen
  | _ :: _, [], hlen, _ => by simp at hlen
  | r :: rs, v :: vs, hlen, h => by
    simp only [List.zipWith_cons_cons, List.map_cons]
    rw [h r (List.mem_cons_self r rs) v,
      map_zipWith_eq_right f g rs vs (by simpa using hlen)
        (fun r2 hr v2 => h r2 (List.mem_cons_of_mem _ hr) v2)]

theorem map_zipWith_eq_left {α β γ : Type*} (f : α → β → α) (g : α → γ) (g2 : α → γ) :
    ∀ (rows : List α) (vals : List β), vals.length = rows.length →
      (∀ r ∈ rows, ∀ v, g (f r v) = g2 r) →
      (List.zipWith f rows vals).map g = rows.map g2
  | [], [], _, _ => rfl
  | [], _ :: _, hlen, _ => by simp at hlen
  | _ :: _, [], hlen, _ => by simp at hlen
  | r :: rs, v :: vs, hlen, h => by
    simp only [List.zipWith_cons_cons, List.map_cons]
    rw [h r (List.mem_cons_self r rs) v,
      map_zipWith_eq_left f g g2 rs vs (by simpa using hlen)
        (fun r2 hr v2 => h r2 (List.mem_cons_of_mem _ hr) v2)]

theorem forall_mem_zipWith {α β γ : Type*} (f : α → β → γ) (P : γ → Prop) :
    ∀ (as2 : List α) (bs : List β), (∀ a ∈ as2, ∀ b, P (f a b)) →
      ∀ x ∈ List.zipWith f as2 bs, P x
  | [], _, _ => by simp
  | _ :: _, [], _ => by simp
  | a :: as2, b :: bs, h => by
    simp only [List.zipWith_cons_cons, List.mem_cons]
    rintro x (rfl | hx)
    · exact h a (List.mem_cons_self a as2) b
    · exact forall_mem_zipWith f P as2 bs (fun a2 ha b2 => h a2 (List.mem_cons_of_mem _ ha) b2) x hx

/-! Helper lemmas about setColumn and getColumn. -/

theorem columns_setColumn (df : DataFrame) (c : String) (vals : List (Option ℚ)) :
    (setColumn df c vals).columns =
      if c ∈ df.columns then df.columns else df.columns ++ [c] := by
  unfold setColumn
  split
  · rfl
  · rfl

theorem mem_columns_setColumn_self (df : DataFrame) (c : String) (vals : List (Option ℚ)) :
    c ∈ (setColumn df c vals).columns := by
  rw [columns_setColumn]
  split
  · assumption
  · exact List.mem_append_right _ (List.mem_singleton.mpr rfl)

theorem mem_columns_setColumn_of_mem (df : DataFrame) (c c0 : String) (vals : List (Option ℚ))
    (h : c0 ∈ df.columns) : c0 ∈ (setColumn df c vals).columns := by
  rw [columns_setColumn]
  split
  · exact h
  · exact List.mem_append_left _ h

theorem wf_setColumn (df : DataFrame) (c : String) (vals : List (Option ℚ))
    (hwf : Wf df) : Wf (setColumn df c vals) := by
  unfold setColumn
  split
  · intro r hr
    refine forall_mem_zipWith _ (fun r2 => r2.length = df.columns.length) df.rows vals ?_ r hr
    intro r2 hr2 v
    rw [length_setRowCell]
    exact hwf r2 hr2
  · intro r hr
    refine forall_mem_zipWith _
      (fun r2 => r2.length = (df.columns ++ [c]).length) df.rows vals ?_ r hr
    intro r2 hr2 v
    simp [hwf r2 hr2]

theorem rows_length_setColumn (df : DataFrame) (c : String) (vals : List (Option ℚ))
    (hlen : vals.length = df.rows.length) :
    (setColumn df c vals).rows.length = df.rows.length := by
  unfold setColumn
  split
  · simp [hlen]
  · simp [hlen]

theorem length_getColumn (df : DataFrame) (c : String) :
    (getColumn df c).length = df.rows.length := by
  unfold getColumn
  simp

theorem length_divColumn (vals : List (Option ℚ)) : (divColumn vals).length = vals.length := by
  unfold divColumn
  simp

theorem getColumn_setColumn_self (df : DataFrame) (c : String) (vals : List (Option ℚ))
    (hwf : Wf df) (hlen : vals.length = df.rows.length) :
    getColumn (setColumn df c vals) c = vals := by
  unfold setColumn getColumn
  split
  case isTrue hc =>
    exact map_zipWith_eq_right _ _ df.rows vals hlen
      (fun r hr v => rowCell_setRowCell_self c v df.columns r hc (hwf r hr))
  case isFalse hc =>
    exact map_zipWith_eq_right _ _ df.rows vals hlen
      (fun r hr v => rowCell_append_self c v df.columns r hc (hwf r hr))

theorem getColumn_setColumn_ne (df : DataFrame) (c c0 : String) (vals : List (Option ℚ))
    (hne : c0 ≠ c) (hwf : Wf df) (hlen : vals.length = df.rows.length) :
    getColumn (setColumn df c vals) c0 = getColumn df c0 := by
  unfold setColumn getColumn
  split
  · exact map_zipWith_eq_left _ _ _ df.rows vals hlen
      (fun r hr v => rowCell_setRowCell_ne c c0 hne v df.columns r)
  · exact map_zipWith_eq_left _ _ _ df.rows vals hlen
      (fun r hr v => rowCell_append_ne c c0 hne v df.columns r (hwf r hr))

/-! Helper lemmas about mvFold. -/

theorem mvFold_nil (df : DataFrame) : mvFold df [] = df := rfl

theorem mvFold_cons (df : DataFrame) (ch : String) (chs : List String) :
    mvFold df (ch :: chs) =
      mvFold (setColumn df (ch ++ "_mV") (divColumn (getColumn df ch))) chs := rfl

theorem wf_mvFold : ∀ (chs : List String) (df : DataFrame), Wf df → Wf (mvFold df chs)
  | [], _, h => h
  | ch :: chs, df, h => by
    rw [mvFold_cons]
    exact wf_mvFold chs _ (wf_setColumn _ _ _ h)

theorem rows_length_mvFold : ∀ (chs : List String) (df : DataFrame),
    (mvFold df chs).rows.length = df.rows.length
  | [], _ => rfl
  | ch :: chs, df => by
    rw [mvFold_cons, rows_length_mvFold chs, rows_length_setColumn]
    rw [length_divColumn, length_getColumn]

theorem mem_columns_mvFold : ∀ (chs : List String) (df : DataFrame) (c : String),
    c ∈ df.columns → c ∈ (mvFold df chs).columns
  | [], _, _, h => h
  | ch :: chs, df, c, h => by
    rw [mvFold_cons]
    exact mem_columns_mvFold chs _ c (mem_columns_setColumn_of_mem _ _ _ _ h)

theorem mem_columns_mvFold_mv : ∀ (chs : List String) (df : DataFrame) (ch : String),
    ch ∈ chs → (ch ++ "_mV") ∈ (mvFold df chs).columns
  | [], _, _, h => absurd h (List.not_mem_nil _)
  | ch1 :: chs, df, ch, h => by
    rw [mvFold_cons]
    rcases List.mem_cons.mp h with h1 | h1
    · rw [h1]
      exact mem_columns_mvFold chs _ _ (mem_columns_setColumn_self _ _ _)
    · exact mem_columns_mvFold_mv chs _ ch h1

theorem getColumn_mvFold_other : ∀ (chs : List String) (df : DataFrame) (c : String),
    Wf df → (∀ ch ∈ chs, c ≠ ch ++ "_mV") →
    getColumn (mvFold df chs) c = getColumn df c
  | [], _, _, _, _ => rfl
  | ch :: chs, df, c, hwf, hne => by
    rw [mvFold_cons,
      getColumn_mvFold_other chs _ c (wf_setColumn _ _ _ hwf)
        (fun x hx => hne x (List.mem_cons_of_mem _ hx))]
    exact getColumn_setColumn_ne df (ch ++ "_mV") c _ (hne ch (List.mem_cons_self _ _)) hwf
      (by rw [length_divColumn, length_getColumn])

theorem getColumn_mvFold_self : ∀ (chs : List String) (df : DataFrame) (ch : String),
    Wf df → chs.Nodup →
    (∀ c ∈ chs, c ∈ df.columns) →
    (∀ c1 ∈ chs, ∀ c2 ∈ chs, c1 ≠ c2 ++ "_mV") →
    (∀ c1 ∈ chs, ∀ c2 ∈ chs, c1 ≠ c2 → c1 ++ "_mV" ≠ c2 ++ "_mV") →
    ch ∈ chs →
    getColumn (mvFold df chs) (ch ++ "_mV") = divColumn (getColumn df ch)
  | [], _, _, _, _, _, _, _, h => absurd h (List.not_mem_nil _)
  | ch1 :: chs, df, ch, hwf, hnd, hmem, hcol, hinj, hch => by
    rw [mvFold_cons]
    have hwf1 : Wf (setColumn df (ch1 ++ "_mV") (divColumn (getColumn df ch1))) :=
      wf_setColumn _ _ _ hwf
    have hnotin : ch1 ∉ chs := (List.nodup_cons.mp hnd).1
    rcases List.mem_cons.mp hch with h1 | h1
    · rw [h1]
      rw [getColumn_mvFold_other chs _ (ch1 ++ "_mV") hwf1 ?_]
      · exact getColumn_setColumn_self df _ _ hwf (by rw [length_divColumn, length_getColumn])
      · intro x hx
        refine hinj ch1 (List.mem_cons_self _ _) x (List.mem_cons_of_mem _ hx) ?_
        intro he
        rw [he] at hnotin
        exact hnotin hx
    · rw [getColumn_mvFold_self chs _ ch hwf1 (List.nodup_cons.mp hnd).2
        (fun c hc => mem_columns_setColumn_of_mem _ _ _ _ (hmem c (List.mem_cons_of_mem _ hc)))
        (fun c1 hc1 c2 hc2 =>
          hcol c1 (List.mem_cons_of_mem _ hc1) c2 (List.mem_cons_of_mem _ hc2))
        (fun c1 hc1 c2 hc2 =>
          hinj c1 (List.mem_cons_of_mem _ hc1) c2 (List.mem_cons_of_mem _ hc2)) h1]
      rw [getColumn_setColumn_ne df (ch1 ++ "_mV") ch _
        (hcol ch (List.mem_cons_of_mem _ h1) ch1 (List.mem_cons_self _ _)) hwf
        (by rw [length_divColumn, length_getColumn])]

/-! Helper lemmas about available_in. -/

theorem available_in_subset (chlist : List String) (df : DataFrame) (channels : List String) :
    ∀ ch ∈ available_in chlist df channels, ch ∈ chlist := by
  intro ch h
  simp only [available_in] at h
  split at h
  · exact (List.mem_filter.mp h).1
  · exact (List.mem_filter.mp (List.mem_filter.mp h).1).1

theorem available_in_mem_columns (chlist : List String) (df : DataFrame)
    (channels : List String) :
    ∀ ch ∈ available_in chlist df channels, ch ∈ df.columns := by
  intro ch h
  simp only [available_in] at h
  split at h
  · exact of_decide_eq_true (List.mem_filter.mp h).2
  · exact of_decide_eq_true (List.mem_filter.mp (List.mem_filter.mp h).1).2

theorem available_in_nodup (chlist : List String) (df : DataFrame) (channels : List String)
    (h : chlist.Nodup) : (available_in chlist df channels).Nodup := by
  simp only [available_in]
  split
  · exact h.filter _
  · exact (h.filter _).filter _

/-! Helper lemmas about load_data. -/

theorem load_data_ok (t : RawTable) (step : Int) (df : DataFrame)
    (h : load_data t step = .ok df) :
    "Time" ∈ t.columns ∧
      df = { columns := keptColumns t,
             index := List.range (loadRows t step).length,
             rows := loadRows t step } := by
  unfold load_data at h
  split at h
  case isTrue hc => exact ⟨hc, (Except.ok.inj h).symm⟩
  case isFalse hc => simp at h

theorem length_keyedRows (t : RawTable) :
    (keyedRows t).length =
      (t.rows.filter (fun r => (toNumeric (cellAt t.columns r "Time")).isSome)).length := by
  have H : ∀ (l : List (List RawCell)),
      (l.filterMap
        (fun r => (toNumeric (cellAt t.columns r "Time")).map (fun q => (q, r)))).length =
      (l.filter (fun r => (toNumeric (cellAt t.columns r "Time")).isSome)).length := by
    intro l
    induction l with
    | nil => rfl
    | cons r l ih =>
      cases htn : toNumeric (cellAt t.columns r "Time") with
      | none => simp [List.filterMap_cons, List.filter_cons, htn, ih]
      | some q => simp [List.filterMap_cons, List.filter_cons, htn, ih]
  exact H t.rows

theorem length_sortedRows (t : RawTable) : (sortedRows t).length = (keyedRows t).length :=
  (List.perm_insertionSort keyLe (keyedRows t)).length_eq

theorem mem_keyedRows (t : RawTable) (p : ℚ × List RawCell) (h : p ∈ keyedRows t) :
    p.2 ∈ t.rows ∧ toNumeric (cellAt t.columns p.2 "Time") = some p.1 := by
  unfold keyedRows at h
  rcases List.mem_filterMap.mp h with ⟨r, hr, hmap⟩
  cases htn : toNumeric (cellAt t.columns r "Time") with
  | none =>
    rw [htn] at hmap
    simp at hmap
  | some q =>
    rw [htn] at hmap
    have hqr : (q, r) = p := by simpa using hmap
    cases hqr
    exact ⟨hr, htn⟩

theorem time_mem_keptColumns (t : RawTable) (hT : "Time" ∈ t.columns) :
    "Time" ∈ keptColumns t := by
  unfold keptColumns
  rw [List.mem_filter]
  exact ⟨hT, by decide⟩

theorem rowCell_convertRow (t : RawTable) (hT : "Time" ∈ t.columns) (p : ℚ × List RawCell) :
    rowCell (keptColumns t) (convertRow t p) "Time" = some p.1 := by
  unfold convertRow
  rw [rowCell_map _ (keptColumns t) "Time" (time_mem_keptColumns t hT)]
  simp

theorem convertRow_eq_cleanRow (t : RawTable) (p : ℚ × List RawCell)
    (hp : toNumeric (cellAt t.columns p.2 "Time") = some p.1) :
    convertRow t p = cleanRow t p.2 := by
  unfold convertRow cleanRow
  refine List.map_congr_left ?_
  intro c hc
  by_cases hcT : c = "Time"
  · rw [if_pos hcT, hcT, hp]
  · rw [if_neg hcT]

theorem getColumn_load_time (t : RawTable) (step : Int) (hT : "Time" ∈ t.columns) :
    getColumn { columns := keptColumns t, index := List.range (loadRows t step).length,
                rows := loadRows t step } "Time"
      = (if step > 1 then everyNth step.toNat (sortedRows t) else sortedRows t).map
          (fun p => some p.1) := by
  unfold getColumn loadRows cleanedRows
  dsimp only
  by_cases hstep : step > 1
  · rw [if_pos hstep, if_pos hstep, everyNth_map, List.map_map]
    apply List.map_congr_left
    intro p hp
    simp only [Function.comp_apply]
    exact rowCell_convertRow t hT p
  · rw [if_neg hstep, if_neg hstep, List.map_map]
    apply List.map_congr_left
    intro p hp
    simp only [Function.comp_apply]
    exact rowCell_convertRow t hT p

theorem sorted_time_keys (t : RawTable) (step : Int) :
    ((if step > 1 then everyNth step.toNat (sortedRows t) else sortedRows t).map
      (fun p => p.1)).Sorted (fun a b => a ≤ b) := by
  have hs : (sortedRows t).Sorted keyLe := List.sorted_insertionSort keyLe (keyedRows t)
  have hsub : (if step > 1 then everyNth step.toNat (sortedRows t)
      else sortedRows t).Sublist (sortedRows t) := by
    split
    · exact everyNth_sublist _ _
    · exact List.Sublist.refl _
  exact (List.Pairwise.sublist hsub hs).map _ (fun a b h => h)

/-! Claim theorems about load_data. -/

/-- C1: for every input table without a column named exactly Time, load_data
fails with the schema error and returns no table at all: the result is the
error value, never an ok value carrying a partial table. -/
theorem load_missing_time_errors (t : RawTable) (step : Int)
    (h : "Time" ∉ t.columns) :
    load_data t step = .error "Expected a Time column (seconds)." := by
  unfold load_data
  rw [if_neg h]

/-- Witness for load_missing_time_errors at a concrete table. -/
theorem load_missing_time_errors_witness :
    load_data { columns := ["A"], rows := [[.num 1]] } 1
      = .error "Expected a Time column (seconds)." :=
  load_missing_time_errors { columns := ["A"], rows := [[.num 1]] } 1 (by decide)

/-- C2: whenever load_data succeeds, the Time column of the result has no
missing value and is sorted ascending, and every row whose Time cell fails
numeric conversion has been dropped: without decimation the row count equals
the number of input rows with a convertible Time cell. -/
theorem load_time_sorted_and_total (t : RawTable) (step : Int) (df : DataFrame)
    (h : load_data t step = .ok df) :
    (∃ ts : List ℚ, getColumn df "Time" = ts.map some ∧
        ts.Sorted (fun a b => a ≤ b)) ∧
      (step ≤ 1 →
        df.rows.length =
          (t.rows.filter
            (fun r => (toNumeric (cellAt t.columns r "Time")).isSome)).length) := by
  obtain ⟨hT, hdf⟩ := load_data_ok t step df h
  subst hdf
  constructor
  · refine ⟨(if step > 1 then everyNth step.toNat (sortedRows t) else sortedRows t).map
      (fun p => p.1), ?_, sorted_time_keys t step⟩
    rw [getColumn_load_time t step hT, List.map_map]
    rfl
  · intro hstep
    show (loadRows t step).length = _
    unfold loadRows
    rw [if_neg (by omega)]
    unfold cleanedRows
    rw [List.length_map, length_sortedRows, length_keyedRows]

/-- Witness for load_time_sorted_and_total on the sample table. -/
theorem load_time_sorted_and_total_witness :
    (∃ ts : List ℚ, getColumn sampleLoaded "Time" = ts.map some ∧
        ts.Sorted (fun a b => a ≤ b)) ∧
      ((1 : Int) ≤ 1 →
        sampleLoaded.rows.length =
          (sampleTable.rows.filter
            (fun r => (toNumeric (cellAt sampleTable.columns r "Time")).isSome)).length) :=
  load_time_sorted_and_total sampleTable 1 sampleLoaded (by rfl)

/-- C3: decimation law: with step k at least one, row i of the decimated
result is row i times k of the table loaded without decimation, the length is
the ceiling of the undecimated length divided by k, and the row index of the
result is the contiguous zero based range in every case. -/
theorem load_decimation_law (t : RawTable) (k : Nat) (hk : 1 ≤ k)
    (df dfPre : DataFrame)
    (h : load_data t (k : Int) = .ok df) (hPre : load_data t 1 = .ok dfPre) :
    (∀ i : Nat, i < df.rows.length → df.rows.getD i [] = dfPre.rows.getD (i * k) []) ∧
      df.rows.length = (dfPre.rows.length + k - 1) / k ∧
      df.index = List.range df.rows.length := by
  obtain ⟨hT, hdf⟩ := load_data_ok t _ df h
  obtain ⟨hT2, hdf2⟩ := load_data_ok t 1 dfPre hPre
  subst hdf hdf2
  have hpre : loadRows t 1 = cleanedRows t := by
    unfold loadRows
    rw [if_neg (by omega)]
  have hsk : loadRows t (k : Int) =
      if 1 < k then everyNth k (cleanedRows t) else cleanedRows t := by
    unfold loadRows
    by_cases hgt : 1 < k
    · rw [if_pos (by exact_mod_cast hgt), if_pos hgt]
      norm_num
    · rw [if_neg (by exact_mod_cast hgt), if_neg hgt]
  refine ⟨?_, ?_, rfl⟩
  · intro i hi
    show (loadRows t (k : Int)).getD i [] = (loadRows t 1).getD (i * k) []
    rw [hpre, hsk]
    by_cases hgt : 1 < k
    · rw [if_pos hgt]
      exact getD_everyNth k hk [] (cleanedRows t) i
    · have hk1 : k = 1 := by omega
      subst hk1
      rw [if_neg hgt, Nat.mul_one]
  · show (loadRows t (k : Int)).length = ((loadRows t 1).length + k - 1) / k
    rw [hpre, hsk]
    by_cases hgt : 1 < k
    · rw [if_pos hgt]
      exact length_everyNth k hk (cleanedRows t)
    · have hk1 : k = 1 := by omega
      subst hk1
      rw [if_neg hgt]
      simp

/-- Evaluation helper: stride two over a two element list keeps the head. -/
theorem everyNth_two {α : Type*} (a b : α) : everyNth 2 [a, b] = [a] := by
  rw [everyNth_cons]
  show a :: everyNth 2 [] = [a]
  rw [everyNth_nil]

/-- Witness for load_decimation_law with step two on the sample table. -/
theorem load_decimation_law_witness :
    (∀ i : Nat, i < sampleLoaded2.rows.length →
        sampleLoaded2.rows.getD i [] = sampleLoaded.rows.getD (i * 2) []) ∧
      sampleLoaded2.rows.length = (sampleLoaded.rows.length + 2 - 1) / 2 ∧
      sampleLoaded2.index = List.range sampleLoaded2.rows.length :=
  load_decimation_law sampleTable 2 (by decide) sampleLoaded2 sampleLoaded
    (by
      show load_data sampleTable 2 = .ok sampleLoaded2
      unfold load_data
      rw [if_pos (by decide)]
      have h2 : loadRows sampleTable 2 = [[some 0, some 1, some 5000]] := by
        unfold loadRows
        rw [if_pos (by decide)]
        have h3 : cleanedRows sampleTable =
            [[some 0, some 1, some 5000], [some 2, some 3, some 5400]] := by rfl
        rw [show (2 : Int).toNat = 2 from rfl, h3, everyNth_two]
      rw [h2]
      rfl)
    (by rfl)

/-- C4: the loaded table has exactly the input columns outside the ignore
set, in input order, so no ignore set name survives and every other column,
Time aside, is kept; every row of the result is the numeric coercion of some
input row whose Time converts, so a failed conversion outside Time stays in
place as a missing value and never drops its row; without decimation the row
count depends only on Time convertibility. -/
theorem load_columns_and_cells (t : RawTable) (step : Int) (df : DataFrame)
    (h : load_data t step = .ok df) :
    df.columns = t.columns.filter (fun c => decide (c ∉ ignore_cols)) ∧
      (∀ c ∈ df.columns, c ∉ ignore_cols) ∧
      (∀ row ∈ df.rows, ∃ r ∈ t.rows,
        (toNumeric (cellAt t.columns r "Time")).isSome ∧ row = cleanRow t r) ∧
      (step ≤ 1 →
        df.rows.length =
          (t.rows.filter
            (fun r => (toNumeric (cellAt t.columns r "Time")).isSome)).length) := by
  obtain ⟨hT, hdf⟩ := load_data_ok t step df h
  subst hdf
  refine ⟨rfl, ?_, ?_, ?_⟩
  · intro c hc
    exact of_decide_eq_true (List.mem_filter.mp hc).2
  · intro row hrow
    have hsub : (loadRows t step).Sublist (cleanedRows t) := by
      unfold loadRows
      split
      · exact everyNth_sublist _ _
      · exact List.Sublist.refl _
    have hrow2 : row ∈ cleanedRows t := hsub.subset hrow
    rcases List.mem_map.mp hrow2 with ⟨p, hp, hconv⟩
    have hpk : p ∈ keyedRows t :=
      (List.perm_insertionSort keyLe (keyedRows t)).mem_iff.mp hp
    have hkey := mem_keyedRows t p hpk
    refine ⟨p.2, hkey.1, ?_, ?_⟩
    · rw [hkey.2]
      rfl
    · rw [← hconv]
      exact convertRow_eq_cleanRow t p hkey.2
  · intro hstep
    show (loadRows t step).length = _
    unfold loadRows
    rw [if_neg (by omega)]
    unfold cleanedRows
    rw [List.length_map, length_sortedRows, length_keyedRows]

/-- Witness for load_columns_and_cells on the sample table. -/
theorem load_columns_and_cells_witness :
    sampleLoaded.columns = sampleTable.columns.filter (fun c => decide (c ∉ ignore_cols)) ∧
      (∀ c ∈ sampleLoaded.columns, c ∉ ignore_cols) ∧
      (∀ row ∈ sampleLoaded.rows, ∃ r ∈ sampleTable.rows,
        (toNumeric (cellAt sampleTable.columns r "Time")).isSome ∧
          row = cleanRow sampleTable r) ∧
      ((1 : Int) ≤ 1 →
        sampleLoaded.rows.length =
          (sampleTable.rows.filter
            (fun r => (toNumeric (cellAt sampleTable.columns r "Time")).isSome)).length) :=
  load_columns_and_cells sampleTable 1 sampleLoaded (by rfl)

/-- C7: load_data is deterministic: loading the same source twice with step
one yields identical tables, as the whole pipeline is a pure function of the
parsed input. -/
theorem load_deterministic (t1 t2 : RawTable)
    (hc : t1.columns = t2.columns) (hr : t1.rows = t2.rows) :
    load_data t1 1 = load_data t2 1 := by
  have ht : t1 = t2 := by
    cases t1
    cases t2
    simp only [RawTable.mk.injEq]
    exact ⟨hc, hr⟩
  rw [ht]

/-- Witness for load_deterministic on the sample table. -/
theorem load_deterministic_witness :
    load_data sampleTable 1 = load_data sampleTable 1 :=
  load_deterministic sampleTable sampleTable rfl rfl

/-- C10: any step value at most one, zero and negative values included,
performs no decimation: the result is exactly that of step one, and loading
still succeeds whenever the Time column is present. -/
theorem load_step_le_one (t : RawTable) (step : Int) (h : step ≤ 1) :
    load_data t step = load_data t 1 ∧
      ("Time" ∈ t.columns → ∃ df : DataFrame, load_data t step = .ok df) := by
  have hrows : loadRows t step = loadRows t 1 := by
    unfold loadRows
    rw [if_neg (by omega), if_neg (by omega)]
  constructor
  · unfold load_data
    rw [hrows]
  · intro hT
    exact ⟨{ columns := keptColumns t, index := List.range (loadRows t step).length,
             rows := loadRows t step }, by unfold load_data; rw [if_pos hT]⟩

/-- Witness for load_step_le_one at a negative step. -/
theorem load_step_le_one_witness :
    load_data sampleTable (-2) = load_data sampleTable 1 ∧
      ("Time" ∈ sampleTable.columns →
        ∃ df : DataFrame, load_data sampleTable (-2) = .ok df) :=
  load_step_le_one sampleTable (-2) (by decide)

/-! Claim theorems about create_plot and save_plot. -/

/-- Unfolding of create_plot_df in mv mode. -/
theorem create_plot_df_mv (df : DataFrame) (channels : List String) :
    create_plot_df df "mv" channels =
      (if available_in cm_channels df channels ≠ [] then
        setColumn (mvFold df (available_in ecg_channels df channels)) "CM_mV"
          (divColumn (getColumn (mvFold df (available_in ecg_channels df channels)) "CM"))
      else mvFold df (available_in ecg_channels df channels)) := by
  simp [create_plot_df]

/-- create_plot_df leaves the table untouched outside mv mode. -/
theorem create_plot_df_not_mv (df : DataFrame) (units : String) (channels : List String)
    (h : units ≠ "mv") : create_plot_df df units channels = df := by
  simp only [create_plot_df]
  rw [if_neg h, if_neg (fun hc => h hc.1)]

/-- C6 counterexample: create_plot does mutate the loaded table. On a table
holding an ECG channel, mv mode adds a derived column, so the table after
chart creation differs from the table load produced. -/
theorem create_plot_mutates_counterexample :
    create_plot_df ecgSample "mv" [] ≠ ecgSample := by
  decide

/-- C6 amended: chart creation in uv mode leaves the loaded table untouched;
in mv mode the only mutation is writing the three derived mV columns, so
every original column survives and every column outside those three derived
names keeps its values. -/
theorem create_plot_mutation_scope (df : DataFrame) (units : String)
    (channels : List String) (hwf : Wf df) :
    (units = "uv" → create_plot_df df units channels = df) ∧
    (∀ c ∈ df.columns, c ∈ (create_plot_df df units channels).columns) ∧
    (∀ c ∈ df.columns, c ∉ ["X1:LEOG_mV", "X2:REOG_mV", "CM_mV"] →
      getColumn (create_plot_df df units channels) c = getColumn df c) := by
  by_cases hu : units = "mv"
  case pos =>
    subst hu
    have hET : ∀ ch ∈ available_in ecg_channels df channels,
        ch = "X1:LEOG" ∨ ch = "X2:REOG" := by
      intro ch hch
      have h1 := available_in_subset ecg_channels df channels ch hch
      simpa [ecg_channels] using h1
    have hwf1 : Wf (mvFold df (available_in ecg_channels df channels)) :=
      wf_mvFold _ _ hwf
    refine ⟨?_, ?_, ?_⟩
    · intro h
      exact absurd h (by decide)
    · intro c hc
      rw [create_plot_df_mv]
      split
      · exact mem_columns_setColumn_of_mem _ _ _ _ (mem_columns_mvFold _ _ _ hc)
      · exact mem_columns_mvFold _ _ _ hc
    · intro c hc hnotin
      rw [create_plot_df_mv]
      have hother : getColumn (mvFold df (available_in ecg_channels df channels)) c
          = getColumn df c := by
        apply getColumn_mvFold_other _ _ _ hwf
        intro ch hch
        rcases hET ch hch with h1 | h1 <;>
          (rw [h1]; intro he; exact hnotin (by rw [he]; decide))
      split
      · rw [getColumn_setColumn_ne _ "CM_mV" c _
          (fun he => hnotin (by rw [he]; decide)) hwf1
          (by rw [length_divColumn, length_getColumn]), hother]
      · exact hother
  case neg =>
    have hid : create_plot_df df units channels = df :=
      create_plot_df_not_mv df units channels hu
    refine ⟨fun _ => hid, ?_, ?_⟩
    · intro c hc
      rw [hid]
      exact hc
    · intro c hc hnotin
      rw [hid]

/-- Witness for create_plot_mutation_scope on a concrete ECG table. -/
theorem create_plot_mutation_scope_witness :
    (("mv" : String) = "uv" → create_plot_df ecgSample "mv" [] = ecgSample) ∧
    (∀ c ∈ ecgSample.columns, c ∈ (create_plot_df ecgSample "mv" []).columns) ∧
    (∀ c ∈ ecgSample.columns, c ∉ ["X1:LEOG_mV", "X2:REOG_mV", "CM_mV"] →
      getColumn (create_plot_df ecgSample "mv" []) c = getColumn ecgSample c) :=
  create_plot_mutation_scope ecgSample "mv" [] (by decide)

/-- C9: in mv mode every available ECG channel feeds the rendering through
its derived mV column, whose cells are the raw microvolt cells divided by
1000; in uv mode the table is untouched and the ECG traces read the raw
channel columns directly. -/
theorem ecg_unit_conversion (df : DataFrame) (channels : List String) (hwf : Wf df) :
    (∀ ch ∈ available_in ecg_channels df channels,
      getColumn (create_plot_df df "mv" channels) (ch ++ "_mV")
        = (getColumn df ch).map (Option.map (fun v => v / 1000))) ∧
      ecg_data_cols df "mv" channels
        = (available_in ecg_channels df channels).map (fun ch => ch ++ "_mV") ∧
      create_plot_df df "uv" channels = df ∧
      ecg_data_cols df "uv" channels = available_in ecg_channels df channels := by
  have hET : ∀ ch ∈ available_in ecg_channels df channels,
      ch = "X1:LEOG" ∨ ch = "X2:REOG" := by
    intro ch hch
    have h1 := available_in_subset ecg_channels df channels ch hch
    simpa [ecg_channels] using h1
  refine ⟨?_, ?_, create_plot_df_not_mv df "uv" channels (by decide), ?_⟩
  · intro ch hch
    rw [create_plot_df_mv]
    have hwf1 : Wf (mvFold df (available_in ecg_channels df channels)) :=
      wf_mvFold _ _ hwf
    have hself : getColumn (mvFold df (available_in ecg_channels df channels)) (ch ++ "_mV")
        = divColumn (getColumn df ch) := by
      apply getColumn_mvFold_self _ _ _ hwf (available_in_nodup _ _ _ (by decide))
        (available_in_mem_columns _ _ _) ?_ ?_ hch
      · intro c1 hc1 c2 hc2
        rcases hET c1 hc1 with h1 | h1 <;> rcases hET c2 hc2 with h2 | h2 <;>
          (rw [h1, h2]; decide)
      · intro c1 hc1 c2 hc2 hne
        rcases hET c1 hc1 with h1 | h1 <;> rcases hET c2 hc2 with h2 | h2
        · exact absurd (h1.trans h2.symm) hne
        · rw [h1, h2]; decide
        · rw [h1, h2]; decide
        · exact absurd (h1.trans h2.symm) hne
    split
    · rw [getColumn_setColumn_ne _ "CM_mV" (ch ++ "_mV") _ ?_ hwf1
        (by rw [length_divColumn, length_getColumn]), hself]
      · rfl
      · rcases hET ch hch with h1 | h1 <;> (rw [h1]; decide)
    · rw [hself]
      rfl
  · unfold ecg_data_cols
    rw [if_pos rfl]
  · unfold ecg_data_cols
    rw [if_neg (by decide)]

/-- Witness for ecg_unit_conversion: a raw ECG value of 1500 microvolts is
rendered as three halves, that is 1.5 millivolts. -/
theorem ecg_unit_conversion_witness :
    getColumn (create_plot_df ecgSample "mv" []) ("X1:LEOG" ++ "_mV")
      = [some ((3 : ℚ) / 2)] := by
  rw [(ecg_unit_conversion ecgSample [] (by decide)).1 "X1:LEOG" (by decide)]
  show [some ((1500 : ℚ) / 1000)] = [some ((3 : ℚ) / 2)]
  norm_num

/-- C8: for every outcome of the optional static image backend, save_plot
produces the interactive document, first and unconditionally; a static
export failure is caught rather than escalated to the caller, and the
interactive document already produced stays in the artifact list. -/
theorem save_plot_interactive_always (f : StaticFailure) :
    (save_plot f).artifacts.head? = some .html ∧ (save_plot f).raised = false ∧
      Artifact.html ∈ (save_plot f).artifacts := by
  cases f <;> exact ⟨rfl, rfl, by decide⟩
